import Mathlib

/-!
Verification development for the silence-excision pipeline
(`src-tauri/src/audio/mod.rs`, `src-tauri/src/video/mod.rs`,
`src-tauri/src/app/mod.rs`).

Modelling conventions:
* Rust `f64` arithmetic is modelled by exact arithmetic — over `ℚ` where the
  source only adds, multiplies and compares (video planner, progress
  percentages, the HTTP range arithmetic), and over `ℝ` where the source uses
  `sqrt`, `log10` and `powf` (the RMS silence detector).
* `usize`/`u64` values are modelled as `ℕ`; casts `as usize` of nonnegative
  floats are `Nat.floor`.
* Fallible Rust functions returning `Result<_, Box<dyn Error>>` are modelled
  with `Except`, the error strings replaced by an inductive enumeration of the
  distinct error sites.
* The async renderer `remove_silence_from_video` is modelled as a pure
  function of an explicit environment (`RunEnv`) that resolves the scheduler
  nondeterminism: which decisive event the `tokio::select!` loop observes
  (all joins succeed / a join surfaces a failed or panicked batch /
  a cancellation tick fires), how many batch completions were joined before
  that event, whether the cancellation flag is set between the join loop and
  the concat step, and whether the concat process exits successfully.
  The model records the emitted `video-progress` percents and whether the
  per-job temp directory was created/removed.
-/

namespace SilenceCutter

/-- Silence segment (struct `SilenceSegment` in `audio/mod.rs`): fields
`start_time`, `end_time`, `duration`, `average_db`, all `f64` in the source,
modelled over a linear ordered field. -/
structure SilenceSegment (α : Type) where
  start_time : α
  end_time : α
  duration : α
  average_db : α
deriving DecidableEq

/-- Constructor `SilenceSegment::new` (audio/mod.rs:83-90): sets `duration = end_time - start_time`. -/
def SilenceSegment.new {α : Type} [LinearOrderedField α] (start_time end_time average_db : α) :
    SilenceSegment α :=
  ⟨start_time, end_time, end_time - start_time, average_db⟩

section Merge

variable {α : Type} [LinearOrderedField α]

/-- One merge step of `merge_close_silences` (audio/mod.rs:645-654): absorb
`next` into `current`, recomputing `average_db` as the duration-weighted mean
(using the pre-merge `duration` fields) and then updating `end_time` and
`duration`. -/
def mergeSeg (current next : SilenceSegment α) : SilenceSegment α :=
  let total_duration := current.duration + next.duration
  let weight_current := current.duration / total_duration
  let weight_next := next.duration / total_duration
  let merged_db := current.average_db * weight_current + next.average_db * weight_next
  { current with
      end_time := next.end_time
      duration := next.end_time - current.start_time
      average_db := merged_db }

/-- The fold of `merge_close_silences` (audio/mod.rs:644-661): walk the sorted
list keeping a `current` accumulator; a `next` whose gap to `current` is
`≤ 0.1` is merged, otherwise `current` is flushed. -/
def mergeFold (current : SilenceSegment α) : List (SilenceSegment α) → List (SilenceSegment α)
  | [] => [current]
  | next :: rest =>
    if next.start_time - current.end_time ≤ 1 / 10 then
      mergeFold (mergeSeg current next) rest
    else
      current :: mergeFold next rest

/-- Function `merge_close_silences` (audio/mod.rs:629-663): on fewer than two segments
return the input; otherwise stably sort by `start_time` (Rust `sort_by` with
`partial_cmp` is a stable sort, modelled by insertion sort) and fold. -/
def merge_close_silences (silences : List (SilenceSegment α)) : List (SilenceSegment α) :=
  if silences.length < 2 then silences
  else
    match List.insertionSort (fun a b => a.start_time ≤ b.start_time) silences with
    | [] => []
    | x :: xs => mergeFold x xs

end Merge

/-! ### Silence detector (`audio/mod.rs:465-626`), real arithmetic -/

/-- Non-overlapping windows of size `w`, the last one possibly shorter:
model of Rust `slice::chunks` (used at audio/mod.rs:524). A zero window size
is unreachable (guarded at audio/mod.rs:510) and yields `[]` here. -/
def chunks {α : Type} (w : ℕ) (l : List α) : List (List α) :=
  match l with
  | [] => []
  | x :: xs =>
    if _ : w = 0 then []
    else (x :: xs).take w :: chunks w ((x :: xs).drop w)
termination_by l.length
decreasing_by simp_all [List.length_drop]; omega

/-- Function `calculate_rms` (audio/mod.rs:602-612): 0 on an empty slice, else
`sqrt(mean(x^2))`. -/
noncomputable def calculate_rms (samples : List ℝ) : ℝ :=
  if samples.isEmpty then 0
  else Real.sqrt ((samples.map (fun x => x ^ 2)).sum / (samples.length : ℝ))

/-- Function `linear_to_db` (audio/mod.rs:615-621): clamps nonpositive input to -100 dB. -/
noncomputable def linear_to_db (linear : ℝ) : ℝ :=
  if linear ≤ 0 then -100 else 20 * Real.logb 10 linear

/-- Function `db_to_linear` (audio/mod.rs:624-626): `10^(db/20)`. -/
noncomputable def db_to_linear (db : ℝ) : ℝ :=
  (10 : ℝ) ^ (db / 20)

/-- The distinct error returns of `detect_silences` (audio/mod.rs:481,491,511). -/
inductive DetectError where
  | noSamples
  | invalidArgument
  | sampleRateTooLow
deriving DecidableEq

/-- Mutable state of the sliding-window loop of `detect_silences`
(audio/mod.rs:514-518). -/
structure DetectState where
  silences : List (SilenceSegment ℝ)
  in_silence : Bool
  silence_start : ℕ
  silence_energy_sum : ℝ
  silence_windows : ℕ

/-- One iteration of the window loop of `detect_silences`
(audio/mod.rs:524-570), processing the enumerated window `(idx, chunk)`. -/
noncomputable def detectStep (sample_rate window_size min_silence_samples : ℕ)
    (threshold_linear : ℝ) (st : DetectState) (p : ℕ × List ℝ) : DetectState :=
  let energy := calculate_rms p.2
  if energy < threshold_linear then
    if st.in_silence then
      { st with
          silence_energy_sum := st.silence_energy_sum + energy
          silence_windows := st.silence_windows + 1 }
    else
      { st with
          in_silence := true
          silence_start := p.1 * window_size
          silence_energy_sum := energy
          silence_windows := 1 }
  else
    if st.in_silence then
      let silence_end := p.1 * window_size
      let silence_samples := silence_end - st.silence_start
      if silence_samples ≥ min_silence_samples then
        { st with
            in_silence := false
            silences := st.silences ++
              [SilenceSegment.new ((st.silence_start : ℝ) / (sample_rate : ℝ))
                ((silence_end : ℝ) / (sample_rate : ℝ))
                (linear_to_db (st.silence_energy_sum / (st.silence_windows : ℝ)))] }
      else
        { st with in_silence := false }
    else
      st

/-- The body of `detect_silences` after cache resolution
(audio/mod.rs:484-598): empty-buffer fast path, `min_silence_duration`
validation, derived parameters, the window loop, the trailing-run emission
(audio/mod.rs:572-589) and the adjacency merge. -/
noncomputable def detectSilencesOnData (audio_data : List ℝ) (sample_rate : ℕ)
    (threshold_db min_silence_duration : ℝ) :
    Except DetectError (List (SilenceSegment ℝ)) :=
  if audio_data.isEmpty then .ok []
  else if min_silence_duration ≤ 0 then .error .invalidArgument
  else
    let threshold_linear := db_to_linear threshold_db
    let min_silence_samples := ⌊min_silence_duration * (sample_rate : ℝ)⌋₊
    let window_size := ⌊(sample_rate : ℝ) * (2 / 100)⌋₊
    if window_size = 0 then .error .sampleRateTooLow
    else
      let final := ((chunks window_size audio_data).enum).foldl
        (detectStep sample_rate window_size min_silence_samples threshold_linear)
        ⟨[], false, 0, 0, 0⟩
      let silences :=
        if final.in_silence then
          let silence_end := audio_data.length
          let silence_samples := silence_end - final.silence_start
          if silence_samples ≥ min_silence_samples then
            final.silences ++
              [SilenceSegment.new ((final.silence_start : ℝ) / (sample_rate : ℝ))
                ((silence_end : ℝ) / (sample_rate : ℝ))
                (linear_to_db (final.silence_energy_sum / (final.silence_windows : ℝ)))]
          else final.silences
        else final.silences
      .ok (merge_close_silences silences)

/-- Lookup in the process-wide `AUDIO_CACHE` (audio/mod.rs:14-16,474), the
cache modelled as an association list. -/
def lookupCache (cache : List (String × List ℝ)) (key : String) : Option (List ℝ) :=
  (cache.find? (fun p => p.1 = key)).map (·.2)

/-- Function `detect_silences` (audio/mod.rs:465-598): resolve the sample buffer from
the cache, else from the caller-supplied fallback, else fail with
`noSamples`; then run the detector body. -/
noncomputable def detect_silences (cache : List (String × List ℝ)) (cache_id : String)
    (audio_data_fallback : Option (List ℝ)) (sample_rate : ℕ)
    (threshold_db min_silence_duration : ℝ) :
    Except DetectError (List (SilenceSegment ℝ)) :=
  match lookupCache cache cache_id with
  | some data => detectSilencesOnData data sample_rate threshold_db min_silence_duration
  | none =>
    match audio_data_fallback with
    | some fallback => detectSilencesOnData fallback sample_rate threshold_db min_silence_duration
    | none => .error .noSamples

/-! ### Video module (`video/mod.rs`), exact arithmetic over `ℚ` -/

/-- Speech (keep) segment (struct `SpeechSegment` in `video/mod.rs:154-158`);
the Rust field `end` is named `stop` here because `end` is a Lean keyword. -/
structure SpeechSegment where
  start : ℚ
  stop : ℚ
deriving DecidableEq

/-- The excision planner: the speech-segment loop of
`remove_silence_from_video` (video/mod.rs:206-217), a fold with state
(pushed segments, `last_end`), followed by the trailing push. -/
def computeSpeechSegments (silences : List (SilenceSegment ℚ)) (total_duration : ℚ) :
    List SpeechSegment :=
  let st := silences.foldl
    (fun (acc : List SpeechSegment × ℚ) s =>
      (if s.start_time > acc.2 + 1 / 100 then acc.1 ++ [⟨acc.2, s.start_time⟩] else acc.1,
       s.end_time))
    ([], 0)
  if st.2 < total_duration - 1 / 100 then st.1 ++ [⟨st.2, total_duration⟩] else st.1

/-- Number of render batches (video/mod.rs:224-225):
`segments_per_batch = 10`, `num_batches = ceil(len / 10)`. -/
def numBatches (numSegments : ℕ) : ℕ := (numSegments + 10 - 1) / 10

/-- Successful `ProcessResult` (video/mod.rs:38-50), restricted to the numeric
fields the claims are about; the path strings, wall-clock `processing_time`,
`success` and `error_message` are omitted. The Rust field `compression_ratio`
is named `compressionRatio` here. -/
structure ProcessResult where
  original_duration : ℚ
  processed_duration : ℚ
  silence_segments : ℕ
  total_silence_removed : ℚ
  compressionRatio : ℚ
deriving DecidableEq

/-- Errors surfaced by `remove_silence_from_video`: the cancellation error
(video/mod.rs:316,325), a failed or panicked batch task propagated by `?`
(video/mod.rs:285-287), an I/O error while creating, writing or flushing the
concat list file propagated by `?` (video/mod.rs:337,340,342), a failure to
spawn/await the concat process propagated by `?` (video/mod.rs:355), and the
concat nonzero exit status (video/mod.rs:379). -/
inductive RunError where
  | exportCancelled
  | batchFailed
  | listWriteFailed
  | concatSpawnFailed
  | concatFailed
deriving DecidableEq

/-- Decisive event observed by the `tokio::select!` join loop
(video/mod.rs:279-320). -/
inductive RunEvent where
  | allOk
  | batchFailed
  | cancelled
deriving DecidableEq

/-- Scheduler environment for one run of `remove_silence_from_video`:
the decisive event of the join loop and how many completions preceded it,
whether the cancellation flag is observed at the pre-concat check
(video/mod.rs:323), whether creating/writing/flushing the concat list file
succeeds (video/mod.rs:337-342), whether spawning and awaiting the concat
process succeeds (video/mod.rs:355), and whether its exit status is success
(video/mod.rs:361). -/
structure RunEnv where
  completedBeforeEvent : ℕ
  event : RunEvent
  cancelBeforeConcat : Bool
  listWriteOk : Bool
  concatSpawnOk : Bool
  concatOk : Bool
deriving DecidableEq

/-- Observable outcome of one run: the returned value, whether the per-job
temp directory `<output>.temp_parts` was created, whether it was removed by
the time the function returned, and the emitted `video-progress` percents in
order. -/
structure RunOutcome where
  outcome : Except RunError ProcessResult
  tempCreated : Bool
  tempRemoved : Bool
  percents : List ℚ

/-- Percents emitted per completed batch (video/mod.rs:291-305):
the `j`-th completion (1-based) emits `1.0 + j / num_batches * 90.0`. -/
def completionPercents (n k : ℕ) : List ℚ :=
  (List.range k).map (fun i : ℕ => 1 + ((i : ℚ) + 1) / (n : ℚ) * 90)

/-- Percents emitted before any batch completes: 0.5 (video/mod.rs:171),
1.0 (video/mod.rs:183), 2.0 at renderer init (video/mod.rs:240), and one 2.0
per submitted batch (video/mod.rs:264). -/
def prePercents (n : ℕ) : List ℚ :=
  [1 / 2, 1, 2] ++ List.replicate n 2

/-- Model of `remove_silence_from_video` (video/mod.rs:161-381) as a function
of the silences, the probed duration, and the scheduler environment.
Branches, in source order: the empty-silences fast path (video/mod.rs:190-204,
which copies the input and returns before creating the temp directory); the
cancellation tick observed during the join loop (video/mod.rs:311-318, removes
the temp dir); a failed or panicked batch surfaced by `?` (video/mod.rs:285-287,
returns WITHOUT removing the temp dir); the cancellation check after the loop
(video/mod.rs:323-326, removes); the 95.0 emission (video/mod.rs:330); an I/O
error while creating, writing or flushing the concat list file, surfaced by
`?` (video/mod.rs:337,340,342, returns WITHOUT removing the temp dir); a
failure to spawn/await the concat process, surfaced by `?` (video/mod.rs:355,
returns WITHOUT removing the temp dir); otherwise the awaited status is
followed by the unconditional temp-dir removal (video/mod.rs:358) and the
result or the concat error is returned. Events that require a running join
loop (`batchFailed`, `cancelled`) are only reachable when there is at least
one batch. -/
def removeSilenceRun (silences : List (SilenceSegment ℚ)) (original_duration : ℚ)
    (env : RunEnv) : RunOutcome :=
  if silences.isEmpty then
    { outcome := .ok
        { original_duration := original_duration
          processed_duration := original_duration
          silence_segments := 0
          total_silence_removed := 0
          compressionRatio := 0 }
      tempCreated := false
      tempRemoved := false
      percents := [1 / 2, 1] }
  else
    let speech := computeSpeechSegments silences original_duration
    let total_silence_removed := (silences.map (·.duration)).sum
    let processed_duration := original_duration - total_silence_removed
    let n := numBatches speech.length
    let k := min env.completedBeforeEvent n
    if env.event = .cancelled ∧ n ≠ 0 then
      { outcome := .error .exportCancelled
        tempCreated := true
        tempRemoved := true
        percents := prePercents n ++ completionPercents n k }
    else if env.event = .batchFailed ∧ n ≠ 0 then
      { outcome := .error .batchFailed
        tempCreated := true
        tempRemoved := false
        percents := prePercents n ++ completionPercents n k }
    else if env.cancelBeforeConcat then
      { outcome := .error .exportCancelled
        tempCreated := true
        tempRemoved := true
        percents := prePercents n ++ completionPercents n n }
    else if env.listWriteOk = false then
      { outcome := .error .listWriteFailed
        tempCreated := true
        tempRemoved := false
        percents := prePercents n ++ completionPercents n n ++ [95] }
    else if env.concatSpawnOk = false then
      { outcome := .error .concatSpawnFailed
        tempCreated := true
        tempRemoved := false
        percents := prePercents n ++ completionPercents n n ++ [95] }
    else if env.concatOk then
      { outcome := .ok
          { original_duration := original_duration
            processed_duration := processed_duration
            silence_segments := silences.length
            total_silence_removed := total_silence_removed
            compressionRatio := total_silence_removed / original_duration * 100 }
        tempCreated := true
        tempRemoved := true
        percents := prePercents n ++ completionPercents n n ++ [95, 100] }
    else
      { outcome := .error .concatFailed
        tempCreated := true
        tempRemoved := true
        percents := prePercents n ++ completionPercents n n ++ [95] }

/-! ### Local media-range HTTP handler (`app/mod.rs:174-242`), standard range branch -/

/-- Response of the `video-stream` handler to a standard (non-suffix) range
request, reduced to status and the numeric header fields. -/
inductive RangeResponse where
  | status206 (start stop total contentLength : ℕ)
  | status416 (total : ℕ)
deriving DecidableEq

/-- The standard-range branch of the `video-stream` scheme handler
(app/mod.rs:187-242): a header `bytes=a-b` or `bytes=a-` with parsed start `a`
and optional end `b`. `e` defaults to `len-1`, is clamped to `len-1`; `a > e`
yields 416 with `bytes */len`; otherwise the served window is capped at
5 MiB: `actual_len = min(e-a+1, 5*1024*1024)`, `actual_end = a+actual_len-1`,
and the response is 206 with `Content-Range: bytes a-actual_end/len` and
`Content-Length = actual_len`. -/
def standardRange (a : ℕ) (b : Option ℕ) (file_len : ℕ) : RangeResponse :=
  let e := match b with
    | some v => v
    | none => file_len - 1
  let e := min e (file_len - 1)
  if a > e then
    .status416 file_len
  else
    let max_chunk := 5 * 1024 * 1024
    let content_len := e - a + 1
    let actual_len := min content_len max_chunk
    let actual_end := a + actual_len - 1
    .status206 a actual_end file_len actual_len

/-! ### Auxiliary definitions used by the proofs -/

/-- Scheduler environment in which every batch task, the concat-list write,
and the concat process all succeed. -/
def envAllOk : RunEnv := ⟨0, .allOk, false, true, true, true⟩

/-- Scheduler environment in which the first joined batch result is a failure. -/
def envBatchFail : RunEnv := ⟨0, .batchFailed, false, true, true, true⟩

/-- Recursive restatement of the speech-segment loop, used to reason about
`computeSpeechSegments` by structural induction. -/
def planAux (total_duration last_end : ℚ) : List (SilenceSegment ℚ) → List SpeechSegment
  | [] => if last_end < total_duration - 1 / 100 then [⟨last_end, total_duration⟩] else []
  | s :: rest =>
    if s.start_time > last_end + 1 / 100 then
      ⟨last_end, s.start_time⟩ :: planAux total_duration s.end_time rest
    else planAux total_duration s.end_time rest

/-- Staircase input with 902 one-second silences separated by one-second gaps:
silence `i` occupies `[2i+1, 2i+2]`. Yields 903 speech segments, hence 91
batches. -/
def stairSilences : ℕ → ℕ → List (SilenceSegment ℚ)
  | 0, _ => []
  | m + 1, i => ⟨2 * (i : ℚ) + 1, 2 * (i : ℚ) + 2, 1, -50⟩ :: stairSilences m (i + 1)

/-- The per-segment invariant established by the detector: well-formed times,
consistent `duration`, clamped dB bound `M`, and window-aligned boundaries
(`end_time` may also be the full-buffer boundary `len / sr`). -/
def SegOK (len sr w : ℕ) (M : ℝ) (s : SilenceSegment ℝ) : Prop :=
  s.start_time < s.end_time ∧
  s.duration = s.end_time - s.start_time ∧
  s.average_db ≤ M ∧
  (∃ j : ℕ, s.start_time = ((j * w : ℕ) : ℝ) / (sr : ℝ)) ∧
  ((∃ j : ℕ, s.end_time = ((j * w : ℕ) : ℝ) / (sr : ℝ)) ∨ s.end_time = ((len : ℕ) : ℝ) / (sr : ℝ))

/-- Invariant of the window loop after processing windows `0, …, n-1`. -/
def StInv (len sr w : ℕ) (thr M : ℝ) (st : DetectState) (n : ℕ) : Prop :=
  (∀ s ∈ st.silences, SegOK len sr w M s) ∧
  (st.in_silence = true →
    0 ≤ st.silence_energy_sum ∧
    st.silence_energy_sum < (st.silence_windows : ℝ) * thr ∧
    1 ≤ st.silence_windows ∧
    ∃ j : ℕ, st.silence_start = j * w ∧ j < n ∧ j * w < len)


instance SilenceSegment.isTotalStart {α : Type} [LinearOrderedField α] :
    IsTotal (SilenceSegment α) (fun a b => a.start_time ≤ b.start_time) :=
  ⟨fun a b => le_total a.start_time b.start_time⟩

instance SilenceSegment.isTransStart {α : Type} [LinearOrderedField α] :
    IsTrans (SilenceSegment α) (fun a b => a.start_time ≤ b.start_time) :=
  ⟨fun _ _ _ h h' => le_trans h h'⟩


/-! ### Helper lemmas and claim theorems -/


lemma speechEval1 : computeSpeechSegments [⟨1, 2, 1, -50⟩] 10 = [⟨0, 1⟩, ⟨2, 10⟩] := by
  simp only [computeSpeechSegments, List.foldl]
  norm_num

lemma runEval_batchFail : removeSilenceRun [⟨1, 2, 1, -50⟩] 10 envBatchFail =
    { outcome := .error .batchFailed, tempCreated := true, tempRemoved := false,
      percents := prePercents 1 ++ completionPercents 1 0 } := by
  unfold removeSilenceRun
  rw [if_neg (by simp)]
  simp [envBatchFail, speechEval1, numBatches]

lemma runEval_allOk : removeSilenceRun [⟨1, 2, 1, -50⟩] 10 envAllOk =
    { outcome := .ok ⟨10, 9, 1, 1, 10⟩, tempCreated := true, tempRemoved := true,
      percents := prePercents 1 ++ completionPercents 1 1 ++ [95, 100] } := by
  unfold removeSilenceRun
  rw [if_neg (by simp)]
  simp [envAllOk, speechEval1, numBatches]
  norm_num

/-- C1, counterexample: a run of `remove_silence_from_video` in which one batch-render task fails (or panics) creates the per-job temp directory but returns the error without removing it (the `?` returns at video/mod.rs:285-287 skip the cleanup). -/
theorem claim_C1_counterexample :
    (removeSilenceRun [⟨1, 2, 1, -50⟩] 10 envBatchFail).tempCreated = true ∧
    (removeSilenceRun [⟨1, 2, 1, -50⟩] 10 envBatchFail).tempRemoved = false := by
  rw [runEval_batchFail]
  exact ⟨rfl, rfl⟩

/-- C1, amended: for every run of `remove_silence_from_video` that creates the
per-job temp directory `<output_path>.temp_parts`, the directory is deleted
before the function returns on success, on observed cancellation (during the
join loop or at the pre-concat check), and on a concat nonzero exit status;
it is NOT deleted when a batch-render task fails or panics (the `?` returns at
video/mod.rs:285-287), when creating, writing or flushing the concat list file
fails (the `?` returns at video/mod.rs:337,340,342), or when spawning/awaiting
the concat process fails (the `?` return at video/mod.rs:355). -/
theorem claim_C1_amended (silences : List (SilenceSegment ℚ)) (d : ℚ) (env : RunEnv)
    (hne : silences ≠ []) :
    (removeSilenceRun silences d env).tempCreated = true ∧
    (env.event ≠ RunEvent.batchFailed → env.listWriteOk = true → env.concatSpawnOk = true →
      (removeSilenceRun silences d env).tempRemoved = true) ∧
    (env.event = RunEvent.batchFailed →
      numBatches (computeSpeechSegments silences d).length ≠ 0 →
      (removeSilenceRun silences d env).tempRemoved = false) ∧
    (env.event = RunEvent.allOk → env.cancelBeforeConcat = false →
      env.listWriteOk = false →
      (removeSilenceRun silences d env).tempRemoved = false) ∧
    (env.event = RunEvent.allOk → env.cancelBeforeConcat = false →
      env.listWriteOk = true → env.concatSpawnOk = false →
      (removeSilenceRun silences d env).tempRemoved = false) := by
  unfold removeSilenceRun
  rw [if_neg (by simpa [List.isEmpty_iff] using hne)]
  simp only
  split_ifs with h1 h2 h3 h4 h5 h6 <;>
    refine ⟨rfl, fun hev hlw hcs => ?_, fun hev hn => ?_, fun hev hcb hlw => ?_,
      fun hev hcb hlw hcs => ?_⟩ <;>
    first
      | rfl
      | simp_all

/-- Witness for C1 amended at a concrete one-silence run in which everything succeeds. -/
theorem claim_C1_amended_witness :
    (removeSilenceRun [⟨1, 2, 1, -50⟩] 10 envAllOk).tempCreated = true ∧
    (removeSilenceRun [⟨1, 2, 1, -50⟩] 10 envAllOk).tempRemoved = true := by
  have h := claim_C1_amended [⟨1, 2, 1, -50⟩] 10 envAllOk (by simp)
  exact ⟨h.1, h.2.1 (by simp [envAllOk]) rfl rfl⟩

/-- C7: for every successful run of `remove_silence_from_video` (including the empty-silences fast path), the returned `ProcessResult` satisfies `total_silence_removed = Σ silence.duration`, `processed_duration = original_duration - total_silence_removed`, and `compression_ratio = total_silence_removed / original_duration * 100` (so `processed_duration + total_silence_removed = original_duration` exactly, hence within ±50 ms). -/
theorem claim_C7_result_accounting (silences : List (SilenceSegment ℚ)) (d : ℚ) (env : RunEnv)
    (r : ProcessResult) (h : (removeSilenceRun silences d env).outcome = .ok r) :
    r.total_silence_removed = (silences.map (·.duration)).sum ∧
    r.processed_duration = d - (silences.map (·.duration)).sum ∧
    r.compressionRatio = (silences.map (·.duration)).sum / d * 100 := by
  unfold removeSilenceRun at h
  by_cases he : silences.isEmpty
  · rw [if_pos he] at h
    simp only [Except.ok.injEq] at h
    rw [List.isEmpty_iff] at he
    subst he
    cases h
    refine ⟨rfl, by simp, by simp⟩
  · rw [if_neg he] at h
    simp only at h
    split_ifs at h with h1 h2 h3 h4 h5 h6
    simp only [Except.ok.injEq] at h
    rw [← h]
    exact ⟨rfl, rfl, rfl⟩

/-- Witness for C7 at a concrete run with one silence of duration 1 in a 10-second video. -/
theorem claim_C7_witness :
    (removeSilenceRun [⟨1, 2, 1, -50⟩] 10 envAllOk).outcome = .ok ⟨10, 9, 1, 1, 10⟩ ∧
    (10 : ℚ) - 1 = 9 ∧
    ((⟨10, 9, 1, 1, 10⟩ : ProcessResult).total_silence_removed =
      (([⟨1, 2, 1, -50⟩] : List (SilenceSegment ℚ)).map (·.duration)).sum ∧
    (⟨10, 9, 1, 1, 10⟩ : ProcessResult).processed_duration =
      10 - (([⟨1, 2, 1, -50⟩] : List (SilenceSegment ℚ)).map (·.duration)).sum ∧
    (⟨10, 9, 1, 1, 10⟩ : ProcessResult).compressionRatio =
      (([⟨1, 2, 1, -50⟩] : List (SilenceSegment ℚ)).map (·.duration)).sum / 10 * 100) := by
  have h : (removeSilenceRun [⟨1, 2, 1, -50⟩] 10 envAllOk).outcome = .ok ⟨10, 9, 1, 1, 10⟩ := by
    rw [runEval_allOk]
  exact ⟨h, by norm_num, claim_C7_result_accounting [⟨1, 2, 1, -50⟩] 10 envAllOk _ h⟩

lemma computeSpeech_aux (total : ℚ) :
    ∀ (l : List (SilenceSegment ℚ)) (le : ℚ) (segs : List SpeechSegment),
      (if (List.foldl
            (fun (acc : List SpeechSegment × ℚ) s =>
              (if s.start_time > acc.2 + 1 / 100 then acc.1 ++ [⟨acc.2, s.start_time⟩] else acc.1,
               s.end_time)) (segs, le) l).2 < total - 1 / 100
       then (List.foldl
            (fun (acc : List SpeechSegment × ℚ) s =>
              (if s.start_time > acc.2 + 1 / 100 then acc.1 ++ [⟨acc.2, s.start_time⟩] else acc.1,
               s.end_time)) (segs, le) l).1 ++
            [⟨(List.foldl
            (fun (acc : List SpeechSegment × ℚ) s =>
              (if s.start_time > acc.2 + 1 / 100 then acc.1 ++ [⟨acc.2, s.start_time⟩] else acc.1,
               s.end_time)) (segs, le) l).2, total⟩]
       else (List.foldl
            (fun (acc : List SpeechSegment × ℚ) s =>
              (if s.start_time > acc.2 + 1 / 100 then acc.1 ++ [⟨acc.2, s.start_time⟩] else acc.1,
               s.end_time)) (segs, le) l).1)
      = segs ++ planAux total le l := by
  intro l
  induction l with
  | nil =>
    intro le segs
    simp only [List.foldl_nil, planAux]
    split_ifs <;> simp
  | cons s rest ih =>
    intro le segs
    simp only [List.foldl_cons, planAux]
    by_cases h : s.start_time > le + 1 / 100
    · simp only [if_pos h]
      rw [ih s.end_time (segs ++ [(⟨le, s.start_time⟩ : SpeechSegment)])]
      simp
    · simp only [if_neg h]
      exact ih s.end_time segs

lemma computeSpeech_eq_planAux (silences : List (SilenceSegment ℚ)) (total : ℚ) :
    computeSpeechSegments silences total = planAux total 0 silences := by
  have h := computeSpeech_aux total silences 0 []
  simp only [List.nil_append] at h
  exact h

lemma planAux_mem_wf (total : ℚ) :
    ∀ (l : List (SilenceSegment ℚ)) (le : ℚ), ∀ x ∈ planAux total le l, x.start < x.stop := by
  intro l
  induction l with
  | nil =>
    intro le x hx
    simp only [planAux] at hx
    split_ifs at hx with h
    · rcases List.mem_singleton.mp hx with rfl
      have : (0 : ℚ) < 1 / 100 := by norm_num
      simp only
      linarith
    · simp at hx
  | cons s rest ih =>
    intro le x hx
    simp only [planAux] at hx
    split_ifs at hx with h
    · rcases List.mem_cons.mp hx with rfl | hx
      · have : (0 : ℚ) < 1 / 100 := by norm_num
        simp only
        linarith
      · exact ih s.end_time x hx
    · exact ih s.end_time x hx

lemma silences_lower :
    ∀ (l : List (SilenceSegment ℚ)) (a : SilenceSegment ℚ),
      (∀ s ∈ l, s.start_time ≤ s.end_time) →
      List.Chain' (fun x y => x.end_time ≤ y.start_time) (a :: l) →
      ∀ x ∈ l, a.end_time ≤ x.start_time := by
  intro l
  induction l with
  | nil => intro a _ _ x hx; simp at hx
  | cons b rest ih =>
    intro a hwf hchain x hx
    have hab : a.end_time ≤ b.start_time := (List.chain'_cons.mp hchain).1
    rcases List.mem_cons.mp hx with rfl | hx
    · exact hab
    · have hb : b.end_time ≤ x.start_time :=
        ih b (fun s hs => hwf s (List.mem_cons_of_mem _ hs)) (List.chain'_cons.mp hchain).2 x hx
      have hwb : b.start_time ≤ b.end_time := hwf b (List.mem_cons_self _ _)
      linarith

lemma planAux_mem_ge (total : ℚ) :
    ∀ (l : List (SilenceSegment ℚ)) (le : ℚ),
      (∀ s ∈ l, s.start_time ≤ s.end_time) →
      List.Chain' (fun x y => x.end_time ≤ y.start_time) l →
      (∀ s ∈ l, le ≤ s.start_time) →
      ∀ x ∈ planAux total le l, le ≤ x.start := by
  intro l
  induction l with
  | nil =>
    intro le _ _ _ x hx
    simp only [planAux] at hx
    split_ifs at hx
    · rcases List.mem_singleton.mp hx with rfl; exact le_refl _
    · simp at hx
  | cons s rest ih =>
    intro le hwf hchain hge x hx
    have hwfr : ∀ s' ∈ rest, s'.start_time ≤ s'.end_time :=
      fun s' hs => hwf s' (List.mem_cons_of_mem _ hs)
    have hchr : List.Chain' (fun x y => x.end_time ≤ y.start_time) rest :=
      (List.chain'_cons'.mp hchain).2
    have hger : ∀ s' ∈ rest, s.end_time ≤ s'.start_time :=
      silences_lower rest s hwfr hchain
    have hles : le ≤ s.start_time := hge s (List.mem_cons_self _ _)
    have hlee : le ≤ s.end_time := hles.trans (hwf s (List.mem_cons_self _ _))
    simp only [planAux] at hx
    split_ifs at hx with h
    · rcases List.mem_cons.mp hx with rfl | hx
      · exact le_refl _
      · exact hlee.trans (ih s.end_time hwfr hchr hger x hx)
    · exact hlee.trans (ih s.end_time hwfr hchr hger x hx)

lemma planAux_pairwise (total : ℚ) :
    ∀ (l : List (SilenceSegment ℚ)) (le : ℚ),
      (∀ s ∈ l, s.start_time ≤ s.end_time) →
      List.Chain' (fun x y => x.end_time ≤ y.start_time) l →
      List.Pairwise (fun a b => a.stop ≤ b.start ∧ a.start < b.start) (planAux total le l) := by
  intro l
  induction l with
  | nil =>
    intro le _ _
    simp only [planAux]
    split_ifs <;> simp
  | cons s rest ih =>
    intro le hwf hchain
    have hwfr : ∀ s' ∈ rest, s'.start_time ≤ s'.end_time :=
      fun s' hs => hwf s' (List.mem_cons_of_mem _ hs)
    have hchr : List.Chain' (fun x y => x.end_time ≤ y.start_time) rest :=
      (List.chain'_cons'.mp hchain).2
    have hger : ∀ s' ∈ rest, s.end_time ≤ s'.start_time :=
      silences_lower rest s hwfr hchain
    simp only [planAux]
    split_ifs with h
    · refine List.Pairwise.cons ?_ (ih s.end_time hwfr hchr)
      intro y hy
      have hys : s.end_time ≤ y.start := planAux_mem_ge total rest s.end_time hwfr hchr hger y hy
      have hse : s.start_time ≤ s.end_time := hwf s (List.mem_cons_self _ _)
      constructor
      · simp only
        linarith
      · simp only
        have : (0 : ℚ) < 1 / 100 := by norm_num
        linarith
    · exact ih s.end_time hwfr hchr

/-- C5: for every sorted, pairwise-disjoint list of silence segments with `end_time ≥ start_time` and every `total_duration ≥ 0`, the excision planner (the push algorithm of video/mod.rs:206-217, embedded as `computeSpeechSegments`) produces speech segments that are pairwise disjoint and strictly increasing in start, each with `start < end`. -/
theorem claim_C5_excision_planner (silences : List (SilenceSegment ℚ)) (total_duration : ℚ)
    (hwf : ∀ s ∈ silences, s.start_time ≤ s.end_time)
    (hchain : List.Chain' (fun x y => x.end_time ≤ y.start_time) silences)
    (htot : 0 ≤ total_duration) :
    List.Pairwise (fun a b => a.stop ≤ b.start ∧ a.start < b.start)
      (computeSpeechSegments silences total_duration) ∧
    ∀ x ∈ computeSpeechSegments silences total_duration, x.start < x.stop := by
  rw [computeSpeech_eq_planAux]
  exact ⟨planAux_pairwise total_duration silences 0 hwf hchain,
         planAux_mem_wf total_duration silences 0⟩

/-- Witness for C5 at a single silence `[1,2]` in a 3-second video. -/
theorem claim_C5_witness :
    List.Pairwise (fun a b => a.stop ≤ b.start ∧ a.start < b.start)
      (computeSpeechSegments [⟨1, 2, 1, -50⟩] 3) ∧
    ∀ x ∈ computeSpeechSegments [⟨1, 2, 1, -50⟩] 3, x.start < x.stop :=
  claim_C5_excision_planner [⟨1, 2, 1, -50⟩] 3
    (by intro s hs; rcases List.mem_singleton.mp hs with rfl; norm_num)
    (by simp)
    (by norm_num)

lemma mergeFold_head {α : Type} [LinearOrderedField α] :
    ∀ (rest : List (SilenceSegment α)) (c : SilenceSegment α),
      ∃ y t, mergeFold c rest = y :: t ∧ y.start_time = c.start_time := by
  intro rest
  induction rest with
  | nil => intro c; exact ⟨c, [], rfl, rfl⟩
  | cons next r ih =>
    intro c
    simp only [mergeFold]
    split_ifs with h
    · obtain ⟨y, t, heq, hs⟩ := ih (mergeSeg c next)
      exact ⟨y, t, heq, hs⟩
    · exact ⟨c, _, rfl, rfl⟩

lemma mergeFold_chain {α : Type} [LinearOrderedField α] :
    ∀ (rest : List (SilenceSegment α)) (c : SilenceSegment α),
      List.Chain' (fun a b => b.start_time - a.end_time > 1 / 10) (mergeFold c rest) := by
  intro rest
  induction rest with
  | nil => intro c; simp [mergeFold]
  | cons next r ih =>
    intro c
    simp only [mergeFold]
    split_ifs with h
    · exact ih (mergeSeg c next)
    · rw [List.chain'_cons']
      refine ⟨?_, ih next⟩
      intro y hy
      obtain ⟨y', t, heq, hs⟩ := mergeFold_head r next
      rw [heq, List.head?_cons, Option.mem_def, Option.some.injEq] at hy
      subst hy
      rw [hs]
      linarith [not_le.mp h]

/-- C4: the merge pass keeps every two adjacent output segments more than 0.100 s apart, and on a sorted pair it merges iff the gap is `≤ 0.100` (exactly 100 ms gap merges, strictly greater stays separate), with the merged `average_db` the duration-weighted mean of the two source dBs. -/
theorem claim_C4_adjacency_merge :
    (∀ l : List (SilenceSegment ℚ),
      (∀ s ∈ l, s.start_time ≤ s.end_time) →
      List.Chain' (fun a b => a.end_time ≤ b.start_time) l →
      List.Chain' (fun a b => b.start_time - a.end_time > 1 / 10) (merge_close_silences l)) ∧
    (∀ a b : SilenceSegment ℚ, a.start_time ≤ b.start_time →
      (b.start_time - a.end_time ≤ 1 / 10 →
        merge_close_silences [a, b] =
          [⟨a.start_time, b.end_time, b.end_time - a.start_time,
            a.average_db * (a.duration / (a.duration + b.duration)) +
            b.average_db * (b.duration / (a.duration + b.duration))⟩]) ∧
      (1 / 10 < b.start_time - a.end_time → merge_close_silences [a, b] = [a, b])) := by
  constructor
  · intro l _ _
    unfold merge_close_silences
    split_ifs with hlen
    · rcases l with _ | ⟨x, _ | ⟨y, t⟩⟩
      · simp
      · simp
      · exact absurd hlen (by simp)
    · rcases hs : List.insertionSort (fun a b => a.start_time ≤ b.start_time) l with _ | ⟨x, xs⟩
      · simp only [hs]
        exact List.chain'_nil
      · simp only [hs]
        exact mergeFold_chain xs x
  · intro a b hab
    have hsort : List.insertionSort
        (fun x y : SilenceSegment ℚ => x.start_time ≤ y.start_time) [a, b] = [a, b] := by
      simp [List.insertionSort, List.orderedInsert, if_pos hab]
    constructor
    · intro h
      unfold merge_close_silences
      rw [if_neg (by simp), hsort]
      simp only [mergeFold, if_pos h]
      rfl
    · intro h
      unfold merge_close_silences
      rw [if_neg (by simp), hsort]
      simp only [mergeFold, if_neg (not_le.mpr h)]

/-- Witness for C4: a pair at exactly 100 ms gap merges into the weighted-mean segment, and a two-silence list with larger gap keeps its gap property. -/
theorem claim_C4_witness :
    List.Chain' (fun a b => b.start_time - a.end_time > 1 / 10)
      (merge_close_silences [⟨0, 1, 1, -50⟩, (⟨11 / 10, 2, 9 / 10, -60⟩ : SilenceSegment ℚ)]) ∧
    merge_close_silences [⟨0, 1, 1, -50⟩, (⟨11 / 10, 2, 9 / 10, -60⟩ : SilenceSegment ℚ)] =
      [⟨0, 2, 2 - 0, -50 * ((1 : ℚ) / (1 + 9 / 10)) + -60 * ((9 / 10 : ℚ) / (1 + 9 / 10))⟩] := by
  constructor
  · exact claim_C4_adjacency_merge.1 [⟨0, 1, 1, -50⟩, ⟨11 / 10, 2, 9 / 10, -60⟩]
      (by intro s hs; simp only [List.mem_cons, List.mem_singleton, List.not_mem_nil,
            or_false] at hs; rcases hs with rfl | rfl <;> norm_num)
      (by simp [List.chain'_cons]; norm_num)
  · exact (claim_C4_adjacency_merge.2 ⟨0, 1, 1, -50⟩ ⟨11 / 10, 2, 9 / 10, -60⟩
      (by norm_num)).1 (by norm_num)

lemma head?_append_left {α : Type} (l t : List α) (h : l ≠ []) :
    (l ++ t).head? = l.head? := by
  cases l with
  | nil => exact absurd rfl h
  | cons x xs => rfl

lemma chain'_replicate_le (n : ℕ) (x : ℚ) : List.Chain' (· ≤ ·) (List.replicate n x) := by
  induction n with
  | zero => simp
  | succ m ih =>
    rw [List.replicate_succ, List.chain'_cons']
    refine ⟨?_, ih⟩
    intro y hy
    cases m with
    | zero => simp at hy
    | succ k =>
      rw [List.replicate_succ, List.head?_cons, Option.mem_def, Option.some.injEq] at hy
      subst hy
      exact le_refl x

lemma prePercents_getLast (n : ℕ) : (prePercents n).getLast? = some 2 := by
  have h : prePercents n = ([1 / 2, 1] ++ List.replicate n 2) ++ [2] := by
    simp only [prePercents]
    rw [List.append_assoc, ← List.replicate_succ', List.replicate_succ]
    rfl
  rw [h, List.getLast?_concat]

lemma chain'_prePercents (n : ℕ) : List.Chain' (· ≤ ·) (prePercents n) := by
  have h : prePercents n = [1 / 2, 1] ++ List.replicate (n + 1) 2 := by
    simp only [prePercents]
    rw [List.replicate_succ]
    rfl
  rw [h, List.chain'_append]
  refine ⟨by norm_num, chain'_replicate_le _ _, ?_⟩
  intro x hx y hy
  simp only [List.getLast?_cons_cons, List.getLast?_singleton, Option.mem_def,
    Option.some.injEq] at hx
  rw [List.replicate_succ, List.head?_cons, Option.mem_def, Option.some.injEq] at hy
  subst hx; subst hy
  norm_num

lemma completion_head (n k : ℕ) (hk : 0 < k) :
    (completionPercents n k).head? = some (1 + (1 : ℚ) / (n : ℚ) * 90) := by
  obtain ⟨j, rfl⟩ : ∃ j, k = j + 1 := ⟨k - 1, by omega⟩
  rw [completionPercents, List.range_succ_eq_map, List.map_cons, List.head?_cons]
  norm_num

lemma completion_getLast (n k : ℕ) (hk : 0 < k) :
    (completionPercents n k).getLast? = some (1 + (k : ℚ) / (n : ℚ) * 90) := by
  obtain ⟨j, rfl⟩ : ∃ j, k = j + 1 := ⟨k - 1, by omega⟩
  rw [completionPercents, List.range_succ, List.map_append, List.map_singleton,
    List.getLast?_concat]
  congr 1
  push_cast
  ring

lemma chain'_completion (n k : ℕ) : List.Chain' (· ≤ ·) (completionPercents n k) := by
  induction k with
  | zero => simp [completionPercents]
  | succ j ih =>
    rw [completionPercents, List.range_succ, List.map_append, List.chain'_append]
    rw [completionPercents] at ih
    refine ⟨ih, by simp, ?_⟩
    intro x hx y hy
    simp only [List.map_singleton, List.head?_cons, Option.mem_def, Option.some.injEq] at hy
    subst hy
    rcases Nat.eq_zero_or_pos j with rfl | hj
    · simp at hx
    · have hlast := completion_getLast n j hj
      rw [completionPercents] at hlast
      rw [hlast, Option.mem_def, Option.some.injEq] at hx
      subst hx
      rcases Nat.eq_zero_or_pos n with rfl | hn
      · simp
      · have hn' : (0 : ℚ) < (n : ℚ) := by exact_mod_cast hn
        have hj' : (j : ℚ) ≤ (j : ℚ) + 1 := by linarith
        have : (j : ℚ) / n ≤ ((j : ℚ) + 1) / n := by gcongr
        nlinarith

lemma percents_chain (n k : ℕ) (t : List ℚ) (hk : k ≤ n) (hn : n ≤ 90)
    (ht : List.Chain' (· ≤ ·) t) (hhead : ∀ y ∈ t.head?, (91 : ℚ) ≤ y) :
    List.Chain' (· ≤ ·) (prePercents n ++ (completionPercents n k ++ t)) := by
  rw [List.chain'_append]
  refine ⟨chain'_prePercents n, ?_, ?_⟩
  · rw [List.chain'_append]
    refine ⟨chain'_completion n k, ht, ?_⟩
    intro x hx y hy
    rcases Nat.eq_zero_or_pos k with rfl | hkpos
    · simp [completionPercents] at hx
    · rw [completion_getLast n k hkpos, Option.mem_def, Option.some.injEq] at hx
      subst hx
      have h91 := hhead y hy
      have hn0 : 0 < n := lt_of_lt_of_le hkpos hk
      have hn' : (0 : ℚ) < (n : ℚ) := by exact_mod_cast hn0
      have hk' : (k : ℚ) ≤ (n : ℚ) := by exact_mod_cast hk
      have hdiv : (k : ℚ) / n ≤ 1 := by
        rw [div_le_one hn']
        exact hk'
      nlinarith
  · intro x hx y hy
    rw [prePercents_getLast, Option.mem_def, Option.some.injEq] at hx
    subst hx
    rcases Nat.eq_zero_or_pos k with rfl | hkpos
    · simp only [completionPercents, List.range_zero, List.map_nil, List.nil_append] at hy
      have := hhead y hy
      linarith
    · have hne : completionPercents n k ≠ [] := by
        obtain ⟨j, rfl⟩ : ∃ j, k = j + 1 := ⟨k - 1, by omega⟩
        simp [completionPercents, List.range_succ]
      rw [head?_append_left _ _ hne, completion_head n k hkpos, Option.mem_def,
        Option.some.injEq] at hy
      subst hy
      have hn0 : 0 < n := lt_of_lt_of_le hkpos hk
      have hn' : (0 : ℚ) < (n : ℚ) := by exact_mod_cast hn0
      have hn90 : (n : ℚ) ≤ 90 := by exact_mod_cast hn
      have : (1 : ℚ) ≤ 1 / n * 90 := by
        rw [div_mul_eq_mul_div, le_div_iff₀ hn']
        linarith
      linarith

/-- C3, amended: the emitted `video-progress` percent sequence of `remove_silence_from_video` is monotonically non-decreasing on every run whose batch count is at most 90. With 91 or more batches the first per-batch-completion value `1 + 90/num_batches` drops below the previously emitted 2.0 (see the counterexample). -/
theorem claim_C3_amended (silences : List (SilenceSegment ℚ)) (d : ℚ) (env : RunEnv)
    (hn : numBatches (computeSpeechSegments silences d).length ≤ 90) :
    List.Chain' (· ≤ ·) ((removeSilenceRun silences d env).percents) := by
  unfold removeSilenceRun
  by_cases he : silences.isEmpty
  · rw [if_pos he]
    simp only [List.chain'_cons, List.chain'_singleton, and_true]
    norm_num
  · rw [if_neg he]
    simp only
    split_ifs with h1 h2 h3 h4 h5 h6
    · simpa using percents_chain _ (min env.completedBeforeEvent _) [] (min_le_right _ _) hn
        (by simp) (by simp)
    · simpa using percents_chain _ (min env.completedBeforeEvent _) [] (min_le_right _ _) hn
        (by simp) (by simp)
    · simpa using percents_chain _ _ [] le_rfl hn (by simp) (by simp)
    · have := percents_chain _ _ [95] le_rfl hn (by simp)
        (by intro y hy; simp only [List.head?_cons, Option.mem_def, Option.some.injEq] at hy;
            subst hy; norm_num)
      simpa [List.append_assoc] using this
    · have := percents_chain _ _ [95] le_rfl hn (by simp)
        (by intro y hy; simp only [List.head?_cons, Option.mem_def, Option.some.injEq] at hy;
            subst hy; norm_num)
      simpa [List.append_assoc] using this
    · have := percents_chain _ _ [95, 100] le_rfl hn (by norm_num)
        (by intro y hy; simp only [List.head?_cons, Option.mem_def, Option.some.injEq] at hy;
            subst hy; norm_num)
      simpa [List.append_assoc] using this
    · have := percents_chain _ _ [95] le_rfl hn (by simp)
        (by intro y hy; simp only [List.head?_cons, Option.mem_def, Option.some.injEq] at hy;
            subst hy; norm_num)
      simpa [List.append_assoc] using this

/-- Witness for C3 amended at a concrete successful one-batch run. -/
theorem claim_C3_amended_witness :
    List.Chain' (· ≤ ·) ((removeSilenceRun [⟨1, 2, 1, -50⟩] 10 envAllOk).percents) :=
  claim_C3_amended [⟨1, 2, 1, -50⟩] 10 envAllOk (by rw [speechEval1]; decide)

lemma stair_ne_nil (m i : ℕ) (hm : m ≠ 0) : stairSilences m i ≠ [] := by
  cases m with
  | zero => exact absurd rfl hm
  | succ k => simp [stairSilences]

lemma stair_planAux : ∀ (m i : ℕ), 2 * (i + m) ≤ 1804 →
    (planAux 1805 (2 * (i : ℚ)) (stairSilences m i)).length = m + 1 := by
  intro m
  induction m with
  | zero =>
    intro i hi
    simp only [stairSilences, planAux]
    rw [if_pos]
    · simp
    · have hi' : (i : ℚ) ≤ 902 := by exact_mod_cast (by omega : i ≤ 902)
      norm_num
      linarith
  | succ m ih =>
    intro i hi
    simp only [stairSilences, planAux]
    rw [if_pos (by norm_num)]
    simp only [List.length_cons]
    have h2 : (2 * (i : ℚ) + 2) = 2 * (((i + 1 : ℕ)) : ℚ) := by push_cast; ring
    rw [h2, ih (i + 1) (by omega)]

lemma stair_speech_len : (computeSpeechSegments (stairSilences 902 0) 1805).length = 903 := by
  rw [computeSpeech_eq_planAux]
  have h := stair_planAux 902 0 (by norm_num)
  simpa using h

lemma stair_percents : (removeSilenceRun (stairSilences 902 0) 1805 envAllOk).percents =
    prePercents 91 ++ completionPercents 91 91 ++ [95, 100] := by
  unfold removeSilenceRun
  rw [if_neg (by simp [stair_ne_nil 902 0])]
  simp only [envAllOk, stair_speech_len]
  norm_num [numBatches]
  simp

/-- C3, counterexample: a successful run with 902 silences (hence 903 speech segments and 91 batches) emits a percent sequence that is NOT monotonically non-decreasing: the first per-batch completion emits `1 + 90/91 < 2.0` right after a 2.0. -/
theorem claim_C3_counterexample :
    ¬ List.Chain' (· ≤ ·) ((removeSilenceRun (stairSilences 902 0) 1805 envAllOk).percents) := by
  rw [stair_percents]
  intro hch
  rw [List.append_assoc, List.chain'_append] at hch
  obtain ⟨-, -, hbound⟩ := hch
  have hb := hbound 2 (by rw [prePercents_getLast]; rfl) (1 + (1 : ℚ) / 91 * 90) ?_
  · norm_num at hb
  · rw [head?_append_left _ _ (by simp [completionPercents, List.range_succ]),
      completion_head 91 91 (by norm_num)]
    rfl

lemma calculate_rms_nonneg (l : List ℝ) : 0 ≤ calculate_rms l := by
  unfold calculate_rms
  split_ifs
  · exact le_refl 0
  · exact Real.sqrt_nonneg _

lemma db_to_linear_pos (t : ℝ) : 0 < db_to_linear t :=
  Real.rpow_pos_of_pos (by norm_num) _

/-- A duration-weighted average of silent-window RMS values stays below the
threshold in dB, up to the -100 dB clamp of `linear_to_db`. -/
lemma avg_db_le (t sum : ℝ) (k : ℕ) (h0 : 0 ≤ sum) (hlt : sum < (k : ℝ) * db_to_linear t)
    (hk : 1 ≤ k) : linear_to_db (sum / (k : ℝ)) ≤ max t (-100) := by
  by_cases hz : sum / (k : ℝ) ≤ 0
  · rw [linear_to_db, if_pos hz]
    exact le_max_right _ _
  · rw [linear_to_db, if_neg hz]
    push_neg at hz
    have hk' : (0 : ℝ) < (k : ℝ) := by exact_mod_cast hk
    have havg : sum / (k : ℝ) < db_to_linear t := by
      rw [div_lt_iff₀ hk']
      linarith [hlt]
    have hlog : Real.logb 10 (sum / (k : ℝ)) < Real.logb 10 (db_to_linear t) :=
      Real.logb_lt_logb (by norm_num) hz havg
    have hrw : Real.logb 10 (db_to_linear t) = t / 20 := by
      rw [db_to_linear, Real.logb_rpow (by norm_num) (by norm_num)]
    refine le_max_of_le_left ?_
    rw [hrw] at hlog
    linarith

lemma chunks_cons_eq {α : Type} (w : ℕ) (l : List α) (hw : w ≠ 0) (hl : l ≠ []) :
    chunks w l = l.take w :: chunks w (l.drop w) := by
  rcases l with _ | ⟨x, xs⟩
  · exact absurd rfl hl
  · rw [chunks]
    rw [dif_neg hw]

lemma chunks_pos {α : Type} (w : ℕ) (hw : w ≠ 0) :
    ∀ (i : ℕ) (l : List α), i < (chunks w l).length → i * w < l.length := by
  intro i
  induction i with
  | zero =>
    intro l hl
    rcases l with _ | ⟨x, xs⟩
    · rw [chunks] at hl
      simp at hl
    · simp
  | succ i ih =>
    intro l hl
    rcases hln : l with _ | ⟨x, xs⟩
    · rw [hln] at hl
      rw [chunks] at hl
      simp at hl
    · rw [← hln]
      rw [chunks_cons_eq w l hw (by rw [hln]; simp)] at hl
      simp only [List.length_cons] at hl
      have := ih (l.drop w) (by omega)
      rw [List.length_drop] at this
      rw [Nat.succ_mul]
      omega

lemma chunks_mem {α : Type} (w : ℕ) : ∀ (l : List α), ∀ c ∈ chunks w l, ∀ x ∈ c, x ∈ l
  | [] => by
    intro c hc
    rw [chunks] at hc
    simp at hc
  | a :: as => by
    intro c hc x hx
    by_cases hw : w = 0
    · rw [chunks, dif_pos hw] at hc
      simp at hc
    · rw [chunks_cons_eq w (a :: as) hw (by simp)] at hc
      rcases List.mem_cons.mp hc with rfl | hc
      · exact List.mem_of_mem_take hx
      · exact List.mem_of_mem_drop (chunks_mem w ((a :: as).drop w) c hc x hx)
termination_by l => l.length
decreasing_by simp [List.length_drop]; omega

lemma StInv_mono {len sr w : ℕ} {thr M : ℝ} {st : DetectState} {n m : ℕ} (hnm : n ≤ m)
    (h : StInv len sr w thr M st n) : StInv len sr w thr M st m := by
  refine ⟨h.1, fun hs => ?_⟩
  obtain ⟨h0, hlt, hk, j, hj, hjn, hjl⟩ := h.2 hs
  exact ⟨h0, hlt, hk, j, hj, lt_of_lt_of_le hjn hnm, hjl⟩

lemma detectStep_inv (len sr w minS : ℕ) (thr M : ℝ)
    (hw : w ≠ 0) (hsr : 1 ≤ sr)
    (hM : ∀ (sum : ℝ) (k : ℕ), 0 ≤ sum → sum < (k : ℝ) * thr → 1 ≤ k →
      linear_to_db (sum / (k : ℝ)) ≤ M)
    (st : DetectState) (n : ℕ) (c : List ℝ) (hn : n * w < len)
    (hinv : StInv len sr w thr M st n) :
    StInv len sr w thr M (detectStep sr w minS thr st (n, c)) (n + 1) := by
  obtain ⟨hsegs, hsil⟩ := hinv
  unfold detectStep
  by_cases he : calculate_rms c < thr
  · rw [if_pos he]
    cases hst : st.in_silence with
    | true =>
      simp only [hst, if_true]
      obtain ⟨h0, hlt, hk, j, hj, hjn, hjl⟩ := hsil hst
      refine ⟨hsegs, fun _ => ?_⟩
      have hrms := calculate_rms_nonneg c
      dsimp only
      refine ⟨by linarith, ?_, by omega, j, hj, by omega, hjl⟩
      push_cast
      linarith
    | false =>
      simp only [hst, if_false]
      refine ⟨hsegs, fun _ => ?_⟩
      have hrms := calculate_rms_nonneg c
      refine ⟨hrms, ?_, le_refl 1, n, rfl, by omega, hn⟩
      push_cast
      linarith
  · rw [if_neg he]
    cases hst : st.in_silence with
    | false =>
      simp only [hst, if_false]
      exact StInv_mono (by omega) ⟨hsegs, hsil⟩
    | true =>
      simp only [hst, if_true]
      obtain ⟨h0, hlt, hk, j, hj, hjn, hjl⟩ := hsil hst
      by_cases hlen : n * w - st.silence_start ≥ minS
      · rw [if_pos hlen]
        refine ⟨?_, by simp⟩
        intro s hs
        rcases List.mem_append.mp hs with hs | hs
        · exact hsegs s hs
        · rcases List.mem_singleton.mp hs with rfl
          have hsrR : (0 : ℝ) < (sr : ℝ) := by exact_mod_cast hsr
          have hjn' : j * w < n * w :=
            (Nat.mul_lt_mul_right (Nat.pos_of_ne_zero hw)).mpr hjn
          refine ⟨?_, rfl, ?_, ⟨j, ?_⟩, Or.inl ⟨n, rfl⟩⟩
          · show (st.silence_start : ℝ) / (sr : ℝ) < ((n * w : ℕ) : ℝ) / (sr : ℝ)
            rw [hj, div_lt_div_iff_of_pos_right hsrR]
            exact_mod_cast hjn'
          · exact hM st.silence_energy_sum st.silence_windows h0 hlt hk
          · show (st.silence_start : ℝ) / (sr : ℝ) = ((j * w : ℕ) : ℝ) / (sr : ℝ)
            rw [hj]
      · rw [if_neg hlen]
        exact ⟨hsegs, by simp⟩

lemma detectLoop_inv (len sr w minS : ℕ) (thr M : ℝ)
    (hw : w ≠ 0) (hsr : 1 ≤ sr)
    (hM : ∀ (sum : ℝ) (k : ℕ), 0 ≤ sum → sum < (k : ℝ) * thr → 1 ≤ k →
      linear_to_db (sum / (k : ℝ)) ≤ M) :
    ∀ (cl : List (List ℝ)) (n : ℕ) (st : DetectState),
      (∀ i, i < cl.length → (n + i) * w < len) →
      StInv len sr w thr M st n →
      StInv len sr w thr M
        (List.foldl (detectStep sr w minS thr) st (List.enumFrom n cl)) (n + cl.length) := by
  intro cl
  induction cl with
  | nil =>
    intro n st _ hinv
    simpa using hinv
  | cons c cl ih =>
    intro n st hidx hinv
    have h0 : n * w < len := by simpa using hidx 0 (by simp)
    have hstep := detectStep_inv len sr w minS thr M hw hsr hM st n c h0 hinv
    have hrec := ih (n + 1) (detectStep sr w minS thr st (n, c))
      (fun i hi => by
        have := hidx (i + 1) (by simpa using Nat.succ_lt_succ hi)
        simpa [Nat.add_assoc, Nat.add_comm 1 i] using this)
      hstep
    show StInv len sr w thr M
      (List.foldl (detectStep sr w minS thr) (detectStep sr w minS thr st (n, c))
        (List.enumFrom (n + 1) cl)) (n + (cl.length + 1))
    have harr : n + (cl.length + 1) = (n + 1) + cl.length := by omega
    rw [harr]
    exact hrec

lemma mergeFold_preserve {α : Type} [LinearOrderedField α] (P : SilenceSegment α → Prop)
    (hP : ∀ a b : SilenceSegment α, P a → P b → a.start_time ≤ b.start_time → P (mergeSeg a b)) :
    ∀ (rest : List (SilenceSegment α)) (c : SilenceSegment α),
      P c → (∀ s ∈ rest, P s) →
      List.Sorted (fun a b => a.start_time ≤ b.start_time) (c :: rest) →
      ∀ x ∈ mergeFold c rest, P x := by
  intro rest
  induction rest with
  | nil =>
    intro c hc _ _ x hx
    rcases List.mem_singleton.mp hx with rfl
    exact hc
  | cons next r ih =>
    intro c hc hrest hsort x hx
    have hsorted := List.sorted_cons.mp hsort
    have hcnext : c.start_time ≤ next.start_time := hsorted.1 next (List.mem_cons_self _ _)
    have hnext : P next := hrest next (List.mem_cons_self _ _)
    have hr : ∀ s ∈ r, P s := fun s hs => hrest s (List.mem_cons_of_mem _ hs)
    simp only [mergeFold] at hx
    split_ifs at hx with h
    · refine ih (mergeSeg c next) (hP c next hc hnext hcnext) hr ?_ x hx
      rw [List.sorted_cons]
      refine ⟨?_, (List.sorted_cons.mp hsorted.2).2⟩
      intro b hb
      have : next.start_time ≤ b.start_time := (List.sorted_cons.mp hsorted.2).1 b hb
      calc (mergeSeg c next).start_time = c.start_time := rfl
        _ ≤ next.start_time := hcnext
        _ ≤ b.start_time := this
    · rcases List.mem_cons.mp hx with rfl | hx
      · exact hc
      · exact ih next hnext hr hsorted.2 x hx

lemma merge_preserve {α : Type} [LinearOrderedField α] (P : SilenceSegment α → Prop)
    (hP : ∀ a b : SilenceSegment α, P a → P b → a.start_time ≤ b.start_time → P (mergeSeg a b))
    (l : List (SilenceSegment α)) (hall : ∀ s ∈ l, P s) :
    ∀ x ∈ merge_close_silences l, P x := by
  unfold merge_close_silences
  split_ifs with hlen
  · exact hall
  · have hperm := List.perm_insertionSort
      (fun a b : SilenceSegment α => a.start_time ≤ b.start_time) l
    have hsorted := List.sorted_insertionSort
      (fun a b : SilenceSegment α => a.start_time ≤ b.start_time) l
    have hall' : ∀ s ∈ List.insertionSort
        (fun a b : SilenceSegment α => a.start_time ≤ b.start_time) l, P s :=
      fun s hs => hall s (hperm.mem_iff.mp hs)
    rcases hs : List.insertionSort
        (fun a b : SilenceSegment α => a.start_time ≤ b.start_time) l with _ | ⟨x, xs⟩
    · intro y hy
      simp only [hs] at hy
      simp at hy
    · intro y hy
      simp only [hs] at hy
      rw [hs] at hall' hsorted
      exact mergeFold_preserve P hP xs x (hall' x (List.mem_cons_self _ _))
        (fun s hsm => hall' s (List.mem_cons_of_mem _ hsm)) hsorted y hy

lemma SegOK_mergeSeg (len sr w : ℕ) (M : ℝ) (a b : SilenceSegment ℝ)
    (ha : SegOK len sr w M a) (hb : SegOK len sr w M b)
    (hab : a.start_time ≤ b.start_time) : SegOK len sr w M (mergeSeg a b) := by
  obtain ⟨ha1, ha2, ha3, ha4, ha5⟩ := ha
  obtain ⟨hb1, hb2, hb3, hb4, hb5⟩ := hb
  have hda : 0 < a.duration := by rw [ha2]; linarith
  have hdb : 0 < b.duration := by rw [hb2]; linarith
  have htot : 0 < a.duration + b.duration := by linarith
  refine ⟨?_, rfl, ?_, ha4, hb5⟩
  · show a.start_time < b.end_time
    linarith
  · show a.average_db * (a.duration / (a.duration + b.duration)) +
      b.average_db * (b.duration / (a.duration + b.duration)) ≤ M
    have hwa : 0 ≤ a.duration / (a.duration + b.duration) := by positivity
    have hwb : 0 ≤ b.duration / (a.duration + b.duration) := by positivity
    have h1 : a.average_db * (a.duration / (a.duration + b.duration)) ≤
        M * (a.duration / (a.duration + b.duration)) :=
      mul_le_mul_of_nonneg_right ha3 hwa
    have h2 : b.average_db * (b.duration / (a.duration + b.duration)) ≤
        M * (b.duration / (a.duration + b.duration)) :=
      mul_le_mul_of_nonneg_right hb3 hwb
    have h3 : M * (a.duration / (a.duration + b.duration)) +
        M * (b.duration / (a.duration + b.duration)) = M := by
      rw [← mul_add, div_add_div_same, div_self (ne_of_gt htot), mul_one]
    linarith

/-- Every segment in a successful `detectSilencesOnData` result satisfies the
full detector invariant `SegOK`. -/
theorem detect_ok_SegOK (audio : List ℝ) (sr : ℕ) (t md : ℝ)
    (segs : List (SilenceSegment ℝ))
    (h : detectSilencesOnData audio sr t md = .ok segs) :
    ∀ s ∈ segs, SegOK audio.length sr ⌊(sr : ℝ) * (2 / 100)⌋₊ (max t (-100)) s := by
  unfold detectSilencesOnData at h
  simp only at h
  by_cases h1 : audio.isEmpty = true
  · rw [if_pos h1] at h
    simp only [Except.ok.injEq] at h
    subst h
    intro s hs
    simp at hs
  · rw [if_neg h1] at h
    by_cases h2 : md ≤ 0
    · rw [if_pos h2] at h
      simp at h
    · rw [if_neg h2] at h
      by_cases h3 : ⌊(sr : ℝ) * (2 / 100)⌋₊ = 0
      · rw [if_pos h3] at h
        simp at h
      · rw [if_neg h3] at h
        simp only [Except.ok.injEq] at h
        subst h
        have hsr1 : 1 ≤ sr := by
          rcases Nat.eq_zero_or_pos sr with rfl | hpos
          · exact absurd (by norm_num : ⌊((0 : ℕ) : ℝ) * (2 / 100)⌋₊ = 0) h3
          · exact hpos
        have hsrR : (0 : ℝ) < (sr : ℝ) := by exact_mod_cast hsr1
        have hM : ∀ (sum : ℝ) (k : ℕ), 0 ≤ sum →
            sum < (k : ℝ) * db_to_linear t → 1 ≤ k →
            linear_to_db (sum / (k : ℝ)) ≤ max t (-100) :=
          fun sum k h0 hlt hk => avg_db_le t sum k h0 hlt hk
        have hloop := detectLoop_inv audio.length sr ⌊(sr : ℝ) * (2 / 100)⌋₊
          ⌊md * (sr : ℝ)⌋₊ (db_to_linear t) (max t (-100)) h3 hsr1 hM
          (chunks ⌊(sr : ℝ) * (2 / 100)⌋₊ audio) 0 ⟨[], false, 0, 0, 0⟩
          (fun i hi => by
            simpa using chunks_pos ⌊(sr : ℝ) * (2 / 100)⌋₊ h3 i audio hi)
          ⟨by simp, by simp⟩
        rw [show List.enumFrom 0 (chunks ⌊(sr : ℝ) * (2 / 100)⌋₊ audio) =
          (chunks ⌊(sr : ℝ) * (2 / 100)⌋₊ audio).enum from rfl] at hloop
        refine merge_preserve _ (SegOK_mergeSeg audio.length sr _ _) _ ?_
        split_ifs with hfin hmin
        · intro s hs
          rcases List.mem_append.mp hs with hs | hs
          · exact hloop.1 s hs
          · rcases List.mem_singleton.mp hs with rfl
            obtain ⟨h0, hlt, hk, j, hj, hjn, hjl⟩ := hloop.2 hfin
            constructor
            · simp only [SilenceSegment.new]
              rw [hj, div_lt_div_iff_of_pos_right hsrR]
              exact_mod_cast hjl
            refine ⟨rfl, hM _ _ h0 hlt hk, ⟨j, ?_⟩, Or.inr rfl⟩
            simp only [SilenceSegment.new]
            rw [hj]
        · exact hloop.1
        · exact hloop.1

/-- C6, amended: every `SilenceSegment` returned by the detector satisfies `end_time > start_time`, `duration = end_time - start_time`, and `average_db ≤ max threshold_db (-100)` — the dB bound holds up to the -100 dB clamp of `linear_to_db`, not relative to an arbitrarily low threshold (see the counterexample). -/
theorem claim_C6_amended (audio : List ℝ) (sr : ℕ) (t md : ℝ)
    (segs : List (SilenceSegment ℝ))
    (h : detectSilencesOnData audio sr t md = .ok segs) :
    ∀ s ∈ segs, s.start_time < s.end_time ∧ s.duration = s.end_time - s.start_time ∧
      s.average_db ≤ max t (-100) := by
  intro s hs
  obtain ⟨h1, h2, h3, -, -⟩ := detect_ok_SegOK audio sr t md segs h s hs
  exact ⟨h1, h2, h3⟩

/-- C10: every returned segment has window-aligned boundaries: `start_time = k*window_size/sample_rate` for some natural `k` (with `window_size = ⌊sample_rate * 0.02⌋`), and `end_time` is either such a multiple or the full-buffer duration `len/sample_rate`; merging never introduces other boundaries. -/
theorem claim_C10_window_alignment (audio : List ℝ) (sr : ℕ) (t md : ℝ)
    (segs : List (SilenceSegment ℝ))
    (h : detectSilencesOnData audio sr t md = .ok segs) :
    ∀ s ∈ segs,
      (∃ j : ℕ, s.start_time = ((j * ⌊(sr : ℝ) * (2 / 100)⌋₊ : ℕ) : ℝ) / (sr : ℝ)) ∧
      ((∃ j : ℕ, s.end_time = ((j * ⌊(sr : ℝ) * (2 / 100)⌋₊ : ℕ) : ℝ) / (sr : ℝ)) ∨
        s.end_time = ((audio.length : ℕ) : ℝ) / (sr : ℝ)) := by
  intro s hs
  obtain ⟨-, -, -, h4, h5⟩ := detect_ok_SegOK audio sr t md segs h s hs
  exact ⟨h4, h5⟩

lemma detectData_invalid (buf : List ℝ) (sr : ℕ) (t md : ℝ)
    (hne : buf ≠ []) (hmd : md ≤ 0) :
    detectSilencesOnData buf sr t md = .error .invalidArgument := by
  unfold detectSilencesOnData
  rw [if_neg (by simpa [List.isEmpty_iff] using hne), if_pos hmd]

/-- C2, amended: whenever the sample buffer resolves (cache hit or fallback) to a NONEMPTY buffer, `min_silence_duration ≤ 0` makes `detect_silences` return `InvalidArgument`. (The empty resolved buffer short-circuits to `Ok []` before validation — see the counterexample.) -/
theorem claim_C2_amended (cache : List (String × List ℝ)) (cache_id : String)
    (fb : Option (List ℝ)) (sr : ℕ) (t md : ℝ) (buf : List ℝ)
    (hres : lookupCache cache cache_id = some buf ∨
      (lookupCache cache cache_id = none ∧ fb = some buf))
    (hne : buf ≠ []) (hmd : md ≤ 0) :
    detect_silences cache cache_id fb sr t md = .error .invalidArgument := by
  unfold detect_silences
  rcases hres with h | ⟨h, h'⟩
  · rw [h]
    exact detectData_invalid buf sr t md hne hmd
  · rw [h, h']
    exact detectData_invalid buf sr t md hne hmd

/-- Witness for C2 amended: a nonempty fallback buffer with `min_silence_duration = 0` yields `InvalidArgument`. -/
theorem claim_C2_amended_witness :
    detect_silences [] "a.mp4" (some [1]) 16000 (-40) 0 = .error .invalidArgument :=
  claim_C2_amended [] "a.mp4" (some [1]) 16000 (-40) 0 [1]
    (Or.inr ⟨rfl, rfl⟩) (by simp) le_rfl

/-- C2, counterexample: on the empty resolved buffer with `min_silence_duration = -1 ≤ 0` the code returns `Ok []`, not `InvalidArgument`, because the empty-buffer check (audio/mod.rs:485) precedes the validation (audio/mod.rs:490). -/
theorem claim_C2_counterexample :
    detect_silences [] "a.mp4" (some []) 16000 (-40) (-1) = .ok [] ∧
    (Except.ok [] : Except DetectError (List (SilenceSegment ℝ))) ≠
      .error .invalidArgument := by
  constructor
  · rfl
  · simp

lemma rms_zero (c : List ℝ) (hz : ∀ x ∈ c, x = 0) : calculate_rms c = 0 := by
  unfold calculate_rms
  split_ifs with h
  · rfl
  · have hsum : (c.map (fun x => x ^ 2)).sum = 0 := by
      apply List.sum_eq_zero
      intro y hy
      obtain ⟨x, hx, rfl⟩ := List.mem_map.mp hy
      rw [hz x hx]
      norm_num
    rw [hsum, zero_div, Real.sqrt_zero]

lemma foldl_zero_silent (sr w minS : ℕ) (thr : ℝ) (hthr : 0 < thr) :
    ∀ (cl : List (List ℝ)) (n k : ℕ), (∀ c ∈ cl, calculate_rms c = 0) →
      List.foldl (detectStep sr w minS thr) ⟨[], true, 0, 0, k⟩ (List.enumFrom n cl) =
        ⟨[], true, 0, 0, k + cl.length⟩ := by
  intro cl
  induction cl with
  | nil => intro n k _; simp
  | cons c cl ih =>
    intro n k hz
    have hc : calculate_rms (n, c).2 = 0 := hz c (List.mem_cons_self _ _)
    show List.foldl _ (detectStep sr w minS thr ⟨[], true, 0, 0, k⟩ (n, c)) _ = _
    have hstep : detectStep sr w minS thr ⟨[], true, 0, 0, k⟩ (n, c) =
        ⟨[], true, 0, 0, k + 1⟩ := by
      unfold detectStep
      rw [hc, if_pos hthr]
      simp
    rw [hstep, ih (n + 1) (k + 1) (fun c' hc' => hz c' (List.mem_cons_of_mem _ hc'))]
    simp only [List.length_cons]
    congr 1
    omega

/-- Full evaluation of the detector on an all-zero buffer of `n` samples:
one silence covering the whole buffer, clamped to -100 dB. -/
lemma detect_zero_eval (sr : ℕ) (t md : ℝ) (n : ℕ)
    (hmd : 0 < md) (hsr : 50 ≤ sr) (hn : md * (sr : ℝ) ≤ (n : ℝ)) :
    detectSilencesOnData (List.replicate n (0 : ℝ)) sr t md =
      .ok [⟨0, (n : ℝ) / (sr : ℝ), (n : ℝ) / (sr : ℝ), -100⟩] := by
  have hsrR : (0 : ℝ) < (sr : ℝ) := by exact_mod_cast (by omega : 0 < sr)
  have hn0 : n ≠ 0 := by
    rintro rfl
    have := mul_pos hmd hsrR
    rw [Nat.cast_zero] at hn
    linarith
  have hsr' : (50 : ℝ) ≤ (sr : ℝ) := by exact_mod_cast hsr
  have hw : ⌊(sr : ℝ) * (2 / 100)⌋₊ ≠ 0 := by
    rw [Ne, Nat.floor_eq_zero, not_lt]
    linarith
  have hminS : ⌊md * (sr : ℝ)⌋₊ ≤ n := by
    have h1 := Nat.floor_le_of_le hn
    simpa using h1
  have hne : List.replicate n (0 : ℝ) ≠ [] := by simp [hn0]
  have hchunks_zero : ∀ c ∈ chunks ⌊(sr : ℝ) * (2 / 100)⌋₊ (List.replicate n (0 : ℝ)),
      calculate_rms c = 0 := by
    intro c hc
    apply rms_zero
    intro x hx
    exact List.eq_of_mem_replicate (chunks_mem _ _ c hc x hx)
  obtain ⟨c0, cl, hcl⟩ : ∃ c0 cl,
      chunks ⌊(sr : ℝ) * (2 / 100)⌋₊ (List.replicate n (0 : ℝ)) = c0 :: cl :=
    ⟨_, _, chunks_cons_eq _ _ hw hne⟩
  have hc0 : calculate_rms (0, c0).2 = 0 :=
    hchunks_zero c0 (by rw [hcl]; exact List.mem_cons_self _ _)
  have hstep0 : detectStep sr ⌊(sr : ℝ) * (2 / 100)⌋₊ ⌊md * (sr : ℝ)⌋₊ (db_to_linear t)
      ⟨[], false, 0, 0, 0⟩ (0, c0) = ⟨[], true, 0, 0, 1⟩ := by
    unfold detectStep
    rw [hc0, if_pos (db_to_linear_pos t)]
    simp
  have hfold : List.foldl
      (detectStep sr ⌊(sr : ℝ) * (2 / 100)⌋₊ ⌊md * (sr : ℝ)⌋₊ (db_to_linear t))
      ⟨[], false, 0, 0, 0⟩
      ((chunks ⌊(sr : ℝ) * (2 / 100)⌋₊ (List.replicate n (0 : ℝ))).enum) =
      ⟨[], true, 0, 0, 1 + cl.length⟩ := by
    rw [hcl]
    rw [show List.enum (c0 :: cl) = (0, c0) :: List.enumFrom 1 cl from rfl]
    rw [List.foldl_cons, hstep0,
      foldl_zero_silent sr _ _ (db_to_linear t) (db_to_linear_pos t) cl 1 1
        (fun c' hc' => hchunks_zero c' (by rw [hcl]; exact List.mem_cons_of_mem _ hc'))]
  unfold detectSilencesOnData
  rw [if_neg (by simpa [List.isEmpty_iff] using hne), if_neg (not_le.mpr hmd), if_neg hw]
  simp only [hfold]
  rw [if_pos trivial]
  rw [if_pos (by simpa using hminS)]
  simp only [List.nil_append, List.length_replicate]
  have hmerge : ∀ s : SilenceSegment ℝ, merge_close_silences [s] = [s] := by
    intro s
    unfold merge_close_silences
    rw [if_pos (by simp)]
  rw [hmerge]
  congr 1
  simp only [SilenceSegment.new, linear_to_db]
  rw [zero_div, if_pos le_rfl]
  norm_num

/-- C9: the detector returns `Ok []` on the empty resolved buffer, and on an all-zero buffer of `n` samples with `min_silence_duration * sample_rate ≤ n` it returns exactly one segment `{0, n/sample_rate}` with `average_db` clamped to -100 dB, for every `threshold_db` and every `min_silence_duration > 0` (ambient side condition: `sample_rate ≥ 50`, i.e. a nonzero window). -/
theorem claim_C9_boundary_cases (sr : ℕ) (t md : ℝ) (n : ℕ)
    (hmd : 0 < md) (hsr : 50 ≤ sr) (hn : md * (sr : ℝ) ≤ (n : ℝ)) :
    detectSilencesOnData [] sr t md = .ok [] ∧
    detectSilencesOnData (List.replicate n (0 : ℝ)) sr t md =
      .ok [⟨0, (n : ℝ) / (sr : ℝ), (n : ℝ) / (sr : ℝ), -100⟩] :=
  ⟨rfl, detect_zero_eval sr t md n hmd hsr hn⟩

/-- Witness for C9 at `sample_rate = 50`, one zero sample, `min_silence_duration = 0.01`. -/
theorem claim_C9_witness :
    detectSilencesOnData [] 50 (-40) (1 / 100) = .ok [] ∧
    detectSilencesOnData (List.replicate 1 (0 : ℝ)) 50 (-40) (1 / 100) =
      .ok [⟨0, ((1 : ℕ) : ℝ) / ((50 : ℕ) : ℝ), ((1 : ℕ) : ℝ) / ((50 : ℕ) : ℝ), -100⟩] :=
  claim_C9_boundary_cases 50 (-40) (1 / 100) 1 (by norm_num) (by norm_num)
    (by push_cast; norm_num)

/-- C6, counterexample: with `threshold_db = -120` a single zero sample yields a segment with `average_db = -100 > threshold_db + 19`, violating `average_db ≤ threshold_db` by 20 dB — far beyond any one-window rounding. -/
theorem claim_C6_counterexample :
    detectSilencesOnData [(0 : ℝ)] 50 (-120) (1 / 100) =
      .ok [⟨0, 1 / 50, 1 / 50, -100⟩] ∧
    ¬ ((-100 : ℝ) ≤ -120 + 19) := by
  constructor
  · have h := detect_zero_eval 50 (-120) (1 / 100) 1 (by norm_num) (by norm_num)
      (by push_cast; norm_num)
    simpa using h
  · norm_num

/-- Witness for C6 amended at the one-segment output of a single zero sample at 50 Hz. -/
theorem claim_C6_amended_witness :
    (⟨0, 1 / 50, 1 / 50, -100⟩ : SilenceSegment ℝ).start_time <
      (⟨0, 1 / 50, 1 / 50, -100⟩ : SilenceSegment ℝ).end_time ∧
    (⟨0, 1 / 50, 1 / 50, -100⟩ : SilenceSegment ℝ).duration =
      (⟨0, 1 / 50, 1 / 50, -100⟩ : SilenceSegment ℝ).end_time -
      (⟨0, 1 / 50, 1 / 50, -100⟩ : SilenceSegment ℝ).start_time ∧
    (⟨0, 1 / 50, 1 / 50, -100⟩ : SilenceSegment ℝ).average_db ≤ max (-40 : ℝ) (-100) := by
  have h := claim_C6_amended [(0 : ℝ)] 50 (-40) (1 / 100) [⟨0, 1 / 50, 1 / 50, -100⟩]
    (by
      have h := detect_zero_eval 50 (-40) (1 / 100) 1 (by norm_num) (by norm_num)
        (by push_cast; norm_num)
      simpa using h)
  exact h _ (List.mem_singleton.mpr rfl)

/-- Witness for C10 at the one-segment output of a single zero sample at 50 Hz. -/
theorem claim_C10_witness :
    (∃ j : ℕ, (⟨0, 1 / 50, 1 / 50, -100⟩ : SilenceSegment ℝ).start_time =
      ((j * ⌊((50 : ℕ) : ℝ) * (2 / 100)⌋₊ : ℕ) : ℝ) / ((50 : ℕ) : ℝ)) ∧
    ((∃ j : ℕ, (⟨0, 1 / 50, 1 / 50, -100⟩ : SilenceSegment ℝ).end_time =
      ((j * ⌊((50 : ℕ) : ℝ) * (2 / 100)⌋₊ : ℕ) : ℝ) / ((50 : ℕ) : ℝ)) ∨
      (⟨0, 1 / 50, 1 / 50, -100⟩ : SilenceSegment ℝ).end_time =
        (([(0 : ℝ)].length : ℕ) : ℝ) / ((50 : ℕ) : ℝ)) := by
  have h := claim_C10_window_alignment [(0 : ℝ)] 50 (-60) (1 / 100) [⟨0, 1 / 50, 1 / 50, -100⟩]
    (by
      have h := detect_zero_eval 50 (-60) (1 / 100) 1 (by norm_num) (by norm_num)
        (by push_cast; norm_num)
      simpa using h)
  exact h _ (List.mem_singleton.mpr rfl)


/-- C8: for a file of length `len ≥ 1` and a standard range `bytes=a-b` (b optional), the handler responds 206 with `Content-Range: bytes a-end/len` and `Content-Length = end-a+1` where `end = min(b or len-1, a+5MiB-1, len-1)`, and 416 with `bytes */len` whenever `a > end`. -/
theorem claim_C8_standard_range (a len : ℕ) (b : Option ℕ) (hlen : 1 ≤ len) :
    (a ≤ min (min (b.getD (len - 1)) (a + 5 * 1024 * 1024 - 1)) (len - 1) →
      standardRange a b len = .status206 a
        (min (min (b.getD (len - 1)) (a + 5 * 1024 * 1024 - 1)) (len - 1)) len
        (min (min (b.getD (len - 1)) (a + 5 * 1024 * 1024 - 1)) (len - 1) - a + 1)) ∧
    (min (min (b.getD (len - 1)) (a + 5 * 1024 * 1024 - 1)) (len - 1) < a →
      standardRange a b len = .status416 len) := by
  have hb : standardRange a b len =
      (if a > min (b.getD (len - 1)) (len - 1) then
        RangeResponse.status416 len
      else
        RangeResponse.status206 a
          (a + min (min (b.getD (len - 1)) (len - 1) - a + 1) (5 * 1024 * 1024) - 1) len
          (min (min (b.getD (len - 1)) (len - 1) - a + 1) (5 * 1024 * 1024))) := by
    rcases b with _ | v <;> rfl
  rw [hb]
  constructor <;> intro h <;> split_ifs with h1 <;>
    first
      | (exfalso; omega)
      | rfl
      | (simp only [RangeResponse.status206.injEq,
          RangeResponse.status416.injEq, true_and, and_true]
         omega)

/-- Witness for C8 at `a=0`, `b=99`, `len=1000`. -/
theorem claim_C8_witness :
    (0 : ℕ) ≤ min (min ((some 99 : Option ℕ).getD (1000 - 1)) (0 + 5 * 1024 * 1024 - 1))
      (1000 - 1) ∧
    standardRange 0 (some 99) 1000 = .status206 0
      (min (min ((some 99 : Option ℕ).getD (1000 - 1)) (0 + 5 * 1024 * 1024 - 1)) (1000 - 1)) 1000
      (min (min ((some 99 : Option ℕ).getD (1000 - 1)) (0 + 5 * 1024 * 1024 - 1)) (1000 - 1)
        - 0 + 1) :=
  ⟨by decide, (claim_C8_standard_range 0 1000 (some 99) (by decide)).1 (by decide)⟩

end SilenceCutter
